import Mathlib

/-!
Verification of the complaint-classifier module (`ml_module/classifier.py`) of the
smart-complaint-system repository.

The Python module is shallowly embedded below.  Strings are Lean `String`s
(lists of characters); Python's `str.lower` is modelled by `Char.toLower`
character-wise (identical on ASCII, which is all the keyword data uses);
Python's whitespace (for `str.strip`, `str.split` and the regex class used by
`preprocess_text`) is modelled by the six ASCII whitespace characters; Python's
substring test `k in s` is modelled by contiguous-sublist containment on the
character lists; probabilities/confidences are rationals.  The statistical
model (`sklearn` pipeline) is abstracted as an oracle `String → Option (String × ℚ)`
where `none` models "the library raised an exception" and `some (label, conf)`
models `predict`/`predict_proba` succeeding with top label `label` and maximal
class probability `conf`.
-/

namespace SmartComplaint

/-- ASCII whitespace, the model of Python's whitespace class used by
`str.strip`, `str.split()` and the regex shorthand in `preprocess_text`. -/
def isSpace (c : Char) : Bool :=
  c = ' ' || c = '\t' || c = '\n' || c = '\r' || c = '\x0b' || c = '\x0c'

/-- Character-wise model of Python `str.lower` (ASCII lowering). -/
def lowerStr (s : String) : String :=
  ⟨s.data.map Char.toLower⟩

/-- Model of Python `str.strip()`: drop whitespace from both ends. -/
def stripStr (s : String) : String :=
  ⟨(((s.data.dropWhile isSpace).reverse.dropWhile isSpace).reverse)⟩

/-- Model of Python's substring containment `k in s`: the characters of `k`
occur contiguously inside the characters of `s`. -/
def substrOf (k s : String) : Bool :=
  decide (k.data <:+: s.data)

/-- Characters kept by the regex substitution in `preprocess_text`
(`[^a-z0-9\s]` is replaced by a space, everything else is kept). -/
def keepChar (c : Char) : Bool :=
  (decide ('a' ≤ c) && decide (c ≤ 'z')) ||
  (decide ('0' ≤ c) && decide (c ≤ '9')) ||
  isSpace c

/-- One step of the regex substitution `re.sub(r'[^a-z0-9\s]', ' ', text)`. -/
def subChar (c : Char) : Char :=
  if keepChar c then c else ' '

/-- Accumulator-based model of Python `str.split()` (split on whitespace runs,
dropping empty pieces); `acc` holds the current word reversed. -/
def wordsAux : List Char → List Char → List (List Char)
  | [], acc => if acc = [] then [] else [acc.reverse]
  | c :: cs, acc =>
    if isSpace c then
      (if acc = [] then wordsAux cs [] else acc.reverse :: wordsAux cs [])
    else
      wordsAux cs (c :: acc)

/-- Character-list core of `ComplaintClassifier.preprocess_text`
(classifier.py:144-152): lowercase, replace every character outside
`[a-z0-9\s]` by a space, then `' '.join(text.split())`. -/
def preprocessList (l : List Char) : List Char :=
  List.intercalate [' '] (wordsAux ((l.map Char.toLower).map subChar) [])

/-- Embedding of `ComplaintClassifier.preprocess_text` (classifier.py:144-152)
on `String`. -/
def preprocess_text (text : String) : String :=
  ⟨preprocessList text.data⟩

/-- Keyword list of the `'Electricity'` entry of `CATEGORY_KEYWORDS`. -/
def electricityKeywords : List String :=
  ["electricity", "power", "light", "electric", "voltage", "transformer",
   "pole", "wire", "current", "blackout", "outage", "meter", "bill",
   "street light", "lamp", "bulb", "connection", "shock"]

/-- Keyword list of the `'Water Supply'` entry of `CATEGORY_KEYWORDS`. -/
def waterSupplyKeywords : List String :=
  ["water", "supply", "pipe", "leak", "drainage", "sewage", "tap",
   "pipeline", "drinking water", "tank", "bore", "pump", "pressure",
   "contaminated", "dirty", "overflow", "blockage", "clog"]

/-- Keyword list of the `'Road & Transport'` entry of `CATEGORY_KEYWORDS`. -/
def roadTransportKeywords : List String :=
  ["road", "street", "pothole", "traffic", "signal", "transport",
   "footpath", "pavement", "crossing", "highway", "pathway", "jam",
   "congestion", "sign", "divider", "crack", "damage", "repair"]

/-- Keyword list of the `'Cleanliness'` entry of `CATEGORY_KEYWORDS`. -/
def cleanlinessKeywords : List String :=
  ["garbage", "waste", "trash", "dirty", "cleanliness", "dustbin",
   "sanitation", "litter", "dump", "smell", "hygiene", "sweeping",
   "cleaning", "stink", "odor", "filth", "rubble", "debris"]

/-- Keyword list of the `'Noise'` entry of `CATEGORY_KEYWORDS`; note the
capitalised `'Speaker'` from the source (classifier.py:37). -/
def noiseKeywords : List String :=
  ["noise", "sound", "loud", "disturbance", "Speaker", "music",
   "construction", "pollution", "volume", "shouting", "party",
   "horn", "siren", "barking", "disturb", "quiet"]

/-- Keyword list of the `'Other'` entry of `CATEGORY_KEYWORDS`. -/
def otherKeywords : List String :=
  ["other", "miscellaneous", "general", "complaint", "issue", "problem"]

/-- Embedding of the `CATEGORY_KEYWORDS` dict (classifier.py:15-44), as an
association list in the dict's insertion (iteration) order. -/
def CATEGORY_KEYWORDS : List (String × List String) :=
  [("Electricity", electricityKeywords),
   ("Water Supply", waterSupplyKeywords),
   ("Road & Transport", roadTransportKeywords),
   ("Cleanliness", cleanlinessKeywords),
   ("Noise", noiseKeywords),
   ("Other", otherKeywords)]

/-- Concatenation of all keyword lists of `CATEGORY_KEYWORDS`. -/
def allKeywords : List String :=
  electricityKeywords ++ waterSupplyKeywords ++ roadTransportKeywords ++
  cleanlinessKeywords ++ noiseKeywords ++ otherKeywords

/-- Embedding of `self.categories = list(CATEGORY_KEYWORDS.keys())`
(classifier.py:136). -/
def categories : List String :=
  CATEGORY_KEYWORDS.map Prod.fst

/-- Embedding of the `TRAINING_DATA` dict (classifier.py:48-121) in insertion
order. -/
def TRAINING_DATA : List (String × List String) :=
  [("Electricity",
    ["There is no street light in our area for the past week",
     "Power outage happening daily since last month",
     "Electric pole wire is broken and hanging dangerously",
     "Transformer is making buzzing noise and sparking",
     "Street lights not working at night causing safety issues",
     "High electricity bill despite low usage",
     "Voltage fluctuation damaging home appliances",
     "Electric meter is faulty and needs replacement",
     "No power supply for 3 days in our locality",
     "Damaged electric wire near children's park"]),
   ("Water Supply",
    ["No water supply for past 3 days in our area",
     "Water pipeline is leaking on the main road",
     "Dirty contaminated water coming from taps",
     "Drainage overflow causing health hazard",
     "Water pressure is very low cannot fill tanks",
     "Sewage blockage in our street smelling bad",
     "Broken water pipe wasting water",
     "No drinking water facility in the area",
     "Water tank is overflowing for days",
     "Underground water leakage damaging road"]),
   ("Road & Transport",
    ["Large pothole on main road causing accidents",
     "Traffic signal not working at busy intersection",
     "Road is completely damaged needs urgent repair",
     "Footpath is broken elderly people falling",
     "Missing road signs causing confusion",
     "Heavy traffic jam every morning",
     "Zebra crossing paint has faded not visible",
     "Speed breaker is too high damaging vehicles",
     "Road divider is broken dangerous for drivers",
     "Street has multiple cracks needs resurfacing"]),
   ("Cleanliness",
    ["Garbage not collected for a week piling up",
     "Dustbins are overflowing attracting flies",
     "People dumping waste on roadside",
     "Bad smell from garbage near residential area",
     "No waste collection in our locality",
     "Stray animals spreading garbage everywhere",
     "Open drain is full of trash causing blockage",
     "Construction debris dumped on road",
     "Littering problem in public park",
     "Sanitation workers not cleaning streets"]),
   ("Noise",
    ["Loud music from neighbor every night",
     "Construction noise starting at 6 AM daily",
     "DJ sound system disturbing whole colony",
     "Factory noise pollution throughout day",
     "Barking dogs not letting us sleep",
     "Party noise till late night",
     "Horn honking near hospital zone",
     "Loud speaker announcements disturbing studies",
     "Noisy generator running all night",
     "Vehicle modification causing loud sound"]),
   ("Other",
    ["General inquiry about municipal services",
     "Request for information",
     "Feedback on recent improvements",
     "Suggestion for area development",
     "Appreciation for good work",
     "Question about upcoming projects",
     "Request for new facility",
     "Complaint about undefined issue",
     "General grievance redressal",
     "Miscellaneous concern"])]

/-- Embedding of the `X_train` list built by `train` (classifier.py:157-163):
all training texts, preprocessed, in iteration order. -/
def X_train : List String :=
  (TRAINING_DATA.map (fun ct => ct.2.map preprocess_text)).flatten

/-- Embedding of the `y_train` list built by `train` (classifier.py:157-163):
the category label repeated once per training text, in iteration order. -/
def y_train : List String :=
  (TRAINING_DATA.map (fun ct => ct.2.map (fun _ => ct.1))).flatten

/-- Python's `max(scores, key=scores.get)` over the association list: the
first entry (in iteration order) whose score is maximal; CPython's `max`
replaces the running best only on a strictly greater key.  The source never
applies it to an empty dict (`CATEGORY_KEYWORDS` has six entries); the `[]`
case is an arbitrary default. -/
def pickMax : List (String × Nat) → String × Nat
  | [] => ("Other", 0)
  | x :: xs => xs.foldl (fun best y => if best.2 < y.2 then y else best) x

/-- Embedding of `ComplaintClassifier.keyword_based_classification`
(classifier.py:199-212): lowercase the raw text, count for each category how
many of its keywords occur as substrings, take the first category with the
maximal count, and return it if its count is positive, else `'Other'`. -/
def keyword_based_classification (text : String) : String :=
  let text_lower := lowerStr text
  let scores := CATEGORY_KEYWORDS.map
    (fun ck => (ck.1, List.countP (fun k => substrOf k text_lower) ck.2))
  let best := pickMax scores
  if 0 < best.2 then best.1 else "Other"

/-- Body of `ComplaintClassifier.predict` after the short-input check
(classifier.py:222-241): preprocess, query the statistical model (the oracle
`model`; `none` models a raised exception), apply the low-confidence keyword
fallback at the strict threshold 0.4, and on exception fall back to the
keyword path with confidence 0.5.  Both fallbacks classify the original
`text`, not the preprocessed one. -/
def classifyStep (model : String → Option (String × ℚ)) (text : String)
    (use_keywords_fallback : Bool) : String × ℚ :=
  let processed_text := preprocess_text text
  match model processed_text with
  | some (prediction, confidence) =>
    if use_keywords_fallback ∧ confidence < (2 : ℚ)/5 then
      (keyword_based_classification text, (3 : ℚ)/5)
    else
      (prediction, confidence)
  | none => (keyword_based_classification text, (1 : ℚ)/2)

/-- Embedding of `ComplaintClassifier.predict` (classifier.py:214-241):
`if not text or len(text.strip()) < 10: return ('Other', 0.5)`, otherwise run
the classification body. -/
def predict (model : String → Option (String × ℚ)) (text : String)
    (use_keywords_fallback : Bool) : String × ℚ :=
  if text = "" ∨ (stripStr text).length < 10 then
    ("Other", (1 : ℚ)/2)
  else
    classifyStep model text use_keywords_fallback

/-- States of the in-memory model reference `self.model` during the classifier
lifecycle (classifier.py:130-197). -/
inductive ModelState where
  | noModel
  | loadedFromDisk
  | trainedInMemory
deriving DecidableEq

/-- Abstract environment for the persistence layer: whether the artifact file
exists (`os.path.exists`), whether `joblib.load` raises, and whether
`joblib.dump` raises. -/
structure FsEnv where
  fileExists : Bool
  loadRaises : Bool
  dumpRaises : Bool
deriving DecidableEq

/-- Observable classifier state after construction: the in-memory model and
whether a model artifact was persisted to disk. -/
structure ClassifierState where
  model : ModelState
  savedToDisk : Bool
deriving DecidableEq

/-- Raw `joblib.load(self.model_path)`: may raise (modelled as `Except.error`). -/
def joblibLoad (env : FsEnv) : Except String ModelState :=
  if env.loadRaises then Except.error "load error" else Except.ok ModelState.loadedFromDisk

/-- Raw `joblib.dump(self.model, self.model_path)`: may raise. -/
def joblibDump (env : FsEnv) : Except String Unit :=
  if env.dumpRaises then Except.error "dump error" else Except.ok ()

/-- Embedding of `ComplaintClassifier.save_model` (classifier.py:182-188): try
to dump; on exception only print, leaving the state otherwise unchanged. -/
def save_model (env : FsEnv) (st : ClassifierState) : ClassifierState :=
  match joblibDump env with
  | Except.ok _ => { st with savedToDisk := true }
  | Except.error _ => st

/-- Embedding of `ComplaintClassifier.train` (classifier.py:154-180): fit the
model in memory, then attempt to save it. -/
def train (env : FsEnv) : ClassifierState :=
  save_model env { model := ModelState.trainedInMemory, savedToDisk := false }

/-- Embedding of `ComplaintClassifier.load_model` (classifier.py:190-197): try
to load; on exception print and retrain. -/
def load_model (env : FsEnv) : ClassifierState :=
  match joblibLoad env with
  | Except.ok m => { model := m, savedToDisk := true }
  | Except.error _ => train env

/-- Embedding of `ComplaintClassifier.__init__` (classifier.py:130-142): load
the model if the artifact file exists, otherwise train (and persist). -/
def classifierInit (env : FsEnv) : ClassifierState :=
  if env.fileExists then load_model env else train env

/-- The running best of Python's `max` over a list is either the starting
element or a list element. -/
lemma foldl_best_mem (xs : List (String × Nat)) (a : String × Nat) :
    xs.foldl (fun best y => if best.2 < y.2 then y else best) a ∈ a :: xs := by
  induction xs generalizing a with
  | nil => simp
  | cons x xs ih =>
    simp only [List.foldl_cons]
    have h := ih (if a.2 < x.2 then x else a)
    rcases List.mem_cons.mp h with h1 | h1
    · by_cases hc : a.2 < x.2
      · rw [if_pos hc] at h1 ⊢
        rw [h1]
        simp
      · rw [if_neg hc] at h1 ⊢
        rw [h1]
        simp
    · exact List.mem_cons_of_mem _ (List.mem_cons_of_mem _ h1)

/-- The result of `pickMax` is the default or one of the list entries. -/
lemma pickMax_mem (l : List (String × Nat)) :
    pickMax l = ("Other", 0) ∨ pickMax l ∈ l := by
  cases l with
  | nil => exact Or.inl rfl
  | cons x xs => exact Or.inr (foldl_best_mem xs x)

/-- The keyword fallback only ever returns a key of `CATEGORY_KEYWORDS`. -/
lemma kbc_mem (text : String) : keyword_based_classification text ∈ categories := by
  simp only [keyword_based_classification]
  split
  · rcases pickMax_mem (CATEGORY_KEYWORDS.map
      (fun ck => (ck.1, List.countP (fun k => substrOf k (lowerStr text)) ck.2))) with h | h
    · rw [h]
      decide
    · have hmem := List.mem_map_of_mem Prod.fst h
      rw [List.map_map] at hmem
      exact hmem
  · decide

/-- C2: for every string that is empty or shorter than 10 characters after
trimming whitespace, `predict` short-circuits to exactly `("Other", 0.5)`,
independently of the statistical model and of the fallback flag (so neither
the statistical classifier nor the keyword fallback is consulted). -/
theorem predict_short_input_short_circuit (text : String)
    (h : text = "" ∨ (stripStr text).length < 10) :
    ∀ (model : String → Option (String × ℚ)) (ukf : Bool),
      predict model text ukf = ("Other", (1 : ℚ)/2) := by
  intro model ukf
  unfold predict
  rw [if_pos h]

theorem predict_short_input_short_circuit_witness :
    ("" = "" ∨ (stripStr "").length < 10) ∧
    predict (fun _ => none) "" true = ("Other", (1 : ℚ)/2) :=
  ⟨Or.inl rfl, predict_short_input_short_circuit "" (Or.inl rfl) (fun _ => none) true⟩

/-- C3: past the short-input check, when the statistical model succeeds with
label `lbl` and maximal class probability `conf` (default fallback flag on),
`predict` returns the keyword classification of the original text with
confidence exactly 0.6 when `conf < 0.4` (strict threshold), and `(lbl, conf)`
itself when `conf ≥ 0.4` (in particular at exactly 0.4 the fallback does not
fire). -/
theorem predict_low_confidence_fallback_boundary
    (model : String → Option (String × ℚ)) (text lbl : String) (conf : ℚ)
    (hlong : ¬(text = "" ∨ (stripStr text).length < 10))
    (hm : model (preprocess_text text) = some (lbl, conf)) :
    predict model text true =
      if conf < (2 : ℚ)/5 then (keyword_based_classification text, (3 : ℚ)/5)
      else (lbl, conf) := by
  simp only [predict, classifyStep, hm, true_and]
  rw [if_neg hlong]

theorem predict_low_confidence_fallback_boundary_witness :
    predict (fun _ => some ("Electricity", (2 : ℚ)/5)) "water leaking everywhere" true
      = ("Electricity", (2 : ℚ)/5) := by
  have h := predict_low_confidence_fallback_boundary
    (fun _ => some ("Electricity", (2 : ℚ)/5)) "water leaking everywhere"
    "Electricity" ((2 : ℚ)/5) (by decide) rfl
  rw [h, if_neg (lt_irrefl _)]

/-- C4: past the short-input check, if the statistical classification step
raises (oracle returns `none`), `predict` catches it and returns the keyword
classification of the original text with confidence exactly 0.5; no exception
reaches the caller (the embedded `predict` is a total function). -/
theorem predict_statistical_exception_fallback
    (model : String → Option (String × ℚ)) (text : String)
    (hlong : ¬(text = "" ∨ (stripStr text).length < 10))
    (hm : model (preprocess_text text) = none) :
    ∀ ukf : Bool,
      predict model text ukf = (keyword_based_classification text, (1 : ℚ)/2) := by
  intro ukf
  simp only [predict, classifyStep]
  rw [if_neg hlong, hm]

theorem predict_statistical_exception_fallback_witness :
    predict (fun _ => none) "water leaking everywhere" true
      = (keyword_based_classification "water leaking everywhere", (1 : ℚ)/2) :=
  predict_statistical_exception_fallback (fun _ => none) "water leaking everywhere"
    (by decide) rfl true

/-- C1: `predict` is total (never raises) and, whenever the statistical oracle
only ever returns labels from the category enumeration with probabilities in
[0, 1] (which the trained model does: its classes are the training labels and
confidences are maxima of probability distributions), every path of `predict`
returns a label from `categories` and a confidence in the closed interval
[0, 1]. -/
theorem predict_returns_enum_label_and_unit_confidence
    (model : String → Option (String × ℚ)) (text : String) (ukf : Bool)
    (hm : ∀ t lbl conf, model t = some (lbl, conf) →
      lbl ∈ categories ∧ 0 ≤ conf ∧ conf ≤ 1) :
    (predict model text ukf).1 ∈ categories ∧
    0 ≤ (predict model text ukf).2 ∧ (predict model text ukf).2 ≤ 1 := by
  by_cases hshort : text = "" ∨ (stripStr text).length < 10
  · rw [predict_short_input_short_circuit text hshort model ukf]
    refine ⟨by decide, by norm_num, by norm_num⟩
  · simp only [predict, classifyStep]
    rw [if_neg hshort]
    rcases hmt : model (preprocess_text text) with _ | ⟨lbl, conf⟩
    · simp only [hmt]
      exact ⟨kbc_mem text, by norm_num, by norm_num⟩
    · simp only [hmt]
      by_cases hc : ukf = true ∧ conf < (2 : ℚ)/5
      · rw [if_pos hc]
        exact ⟨kbc_mem text, by norm_num, by norm_num⟩
      · rw [if_neg hc]
        exact hm _ _ _ hmt

theorem predict_returns_enum_label_and_unit_confidence_witness :
    (predict (fun _ => none) "loud music playing all night" true).1 ∈ categories ∧
    0 ≤ (predict (fun _ => none) "loud music playing all night" true).2 ∧
    (predict (fun _ => none) "loud music playing all night" true).2 ≤ 1 :=
  predict_returns_enum_label_and_unit_confidence (fun _ => none)
    "loud music playing all night" true (fun _ _ _ h => Option.noConfusion h)

/-- C6: classifier construction lifecycle over the abstract persistence
environment: if the artifact exists and loads, the loaded model is used; if
loading raises, the error is caught and the classifier retrains; if the
artifact does not exist, the classifier trains and persists (persistence
succeeding exactly when `joblib.dump` does not raise); a dump failure is
caught locally, and in every case construction completes with an in-memory
model set. -/
theorem classifier_init_lifecycle (env : FsEnv) :
    (env.fileExists = true → env.loadRaises = false →
      classifierInit env = ⟨ModelState.loadedFromDisk, true⟩) ∧
    (env.fileExists = true → env.loadRaises = true →
      (classifierInit env).model = ModelState.trainedInMemory) ∧
    (env.fileExists = false →
      (classifierInit env).model = ModelState.trainedInMemory ∧
      (classifierInit env).savedToDisk = !env.dumpRaises) ∧
    (classifierInit env).model ≠ ModelState.noModel := by
  obtain ⟨e, l, d⟩ := env
  revert e l d
  decide

theorem classifier_init_lifecycle_witness :
    (classifierInit ⟨true, true, false⟩).model = ModelState.trainedInMemory :=
  (classifier_init_lifecycle ⟨true, true, false⟩).2.1 rfl rfl

/-- C7: the training labels are exactly the keys of the keyword dictionary
(`TRAINING_DATA` and `CATEGORY_KEYWORDS` have the same keys in the same
order), every category has at least one training example, the distinct labels
the model is fitted on (`y_train`) are exactly the category enumeration, and
the keyword path can only return labels from that enumeration. -/
theorem label_enumeration_invariant :
    TRAINING_DATA.map Prod.fst = categories ∧
    TRAINING_DATA.all (fun ct => !ct.2.isEmpty) = true ∧
    y_train.eraseDups = categories ∧
    ∀ text, keyword_based_classification text ∈ categories :=
  ⟨by decide, by decide, by decide, kbc_mem⟩

/-- C10: the short-input check of `predict` is evaluated on the raw
(whitespace-trimmed) input, not on the normalized text: any nonempty string of
at least 10 characters after trimming proceeds to the classification body for
every model — even though normalization can reduce such a string (for example
ten punctuation characters) to the empty string. -/
theorem short_input_check_on_raw_text (text : String)
    (h1 : text ≠ "") (h2 : 10 ≤ (stripStr text).length) :
    (∀ (model : String → Option (String × ℚ)) (ukf : Bool),
      predict model text ukf = classifyStep model text ukf) ∧
    preprocess_text "!!!!!!!!!!" = "" := by
  refine ⟨fun model ukf => ?_, by decide⟩
  have hno : ¬(text = "" ∨ (stripStr text).length < 10) := by
    rintro (hc | hc)
    · exact h1 hc
    · omega
  unfold predict
  rw [if_neg hno]

theorem short_input_check_on_raw_text_witness :
    predict (fun _ => none) "!!!!!!!!!!" true
      = classifyStep (fun _ => none) "!!!!!!!!!!" true :=
  (short_input_check_on_raw_text "!!!!!!!!!!" (by decide) (by decide)).1
    (fun _ => none) true

/-- Every electricity keyword is a keyword of some category. -/
lemma electricity_sub_all : ∀ k ∈ electricityKeywords, k ∈ allKeywords := by decide

/-- Every water-supply keyword is a keyword of some category. -/
lemma waterSupply_sub_all : ∀ k ∈ waterSupplyKeywords, k ∈ allKeywords := by decide

/-- Every road-and-transport keyword is a keyword of some category. -/
lemma roadTransport_sub_all : ∀ k ∈ roadTransportKeywords, k ∈ allKeywords := by decide

/-- Every cleanliness keyword is a keyword of some category. -/
lemma cleanliness_sub_all : ∀ k ∈ cleanlinessKeywords, k ∈ allKeywords := by decide

/-- Every noise keyword is a keyword of some category. -/
lemma noise_sub_all : ∀ k ∈ noiseKeywords, k ∈ allKeywords := by decide

/-- Every keyword of the `'Other'` list is a keyword of some category. -/
lemma other_sub_all : ∀ k ∈ otherKeywords, k ∈ allKeywords := by decide

/-- On a text whose only occurring keyword is `"pothole"`, each category score
collapses to the number of occurrences of the literal `"pothole"` in its
keyword list. -/
lemma score_pothole_only (s : String)
    (hp : substrOf "pothole" (lowerStr s) = true)
    (ho : ∀ k, k ∈ allKeywords → k ≠ "pothole" → substrOf k (lowerStr s) = false)
    (kws : List String) (hsub : ∀ k ∈ kws, k ∈ allKeywords) :
    List.countP (fun k => substrOf k (lowerStr s)) kws
      = List.countP (fun k => k == "pothole") kws := by
  apply List.countP_congr
  intro k hk
  by_cases hkp : k = "pothole"
  · subst hkp
    simp [hp]
  · simp [ho k (hsub k hk) hkp, hkp]

/-- A category whose keywords never occur in the text scores zero. -/
lemma score_zero_of_no_keyword (t : String) (kws : List String)
    (hsub : ∀ k ∈ kws, k ∈ allKeywords)
    (ht : ∀ k, k ∈ allKeywords → substrOf k (lowerStr t) = false) :
    List.countP (fun k => substrOf k (lowerStr t)) kws = 0 :=
  List.countP_eq_zero.mpr (fun a ha => by simp [ht a (hsub a ha)])

/-- C5: `keyword_based_classification` counts, per category, how many of its
keywords occur as substrings of the lower-cased text and picks the first
category (in dictionary iteration order) with the maximal count: on any text
containing `"pothole"` and no other keyword it returns `"Road & Transport"`;
when every category counts zero it returns `"Other"`; and ties go to the
earlier category in enumeration order (witnessed by `"power water"`, which
scores 1 for both Electricity and Water Supply and classifies as
`"Electricity"`). -/
theorem keyword_classification_pothole_determinism (s : String)
    (hp : substrOf "pothole" (lowerStr s) = true)
    (ho : ∀ k, k ∈ allKeywords → k ≠ "pothole" → substrOf k (lowerStr s) = false) :
    keyword_based_classification s = "Road & Transport" ∧
    (∀ t, (∀ k, k ∈ allKeywords → substrOf k (lowerStr t) = false) →
      keyword_based_classification t = "Other") ∧
    keyword_based_classification "power water" = "Electricity" := by
  refine ⟨?_, ?_, by decide⟩
  · have h1 := score_pothole_only s hp ho electricityKeywords electricity_sub_all
    have h2 := score_pothole_only s hp ho waterSupplyKeywords waterSupply_sub_all
    have h3 := score_pothole_only s hp ho roadTransportKeywords roadTransport_sub_all
    have h4 := score_pothole_only s hp ho cleanlinessKeywords cleanliness_sub_all
    have h5 := score_pothole_only s hp ho noiseKeywords noise_sub_all
    have h6 := score_pothole_only s hp ho otherKeywords other_sub_all
    simp only [keyword_based_classification, CATEGORY_KEYWORDS, List.map_cons,
      List.map_nil, h1, h2, h3, h4, h5, h6]
    decide
  · intro t ht
    have h1 := score_zero_of_no_keyword t electricityKeywords electricity_sub_all ht
    have h2 := score_zero_of_no_keyword t waterSupplyKeywords waterSupply_sub_all ht
    have h3 := score_zero_of_no_keyword t roadTransportKeywords roadTransport_sub_all ht
    have h4 := score_zero_of_no_keyword t cleanlinessKeywords cleanliness_sub_all ht
    have h5 := score_zero_of_no_keyword t noiseKeywords noise_sub_all ht
    have h6 := score_zero_of_no_keyword t otherKeywords other_sub_all ht
    simp only [keyword_based_classification, CATEGORY_KEYWORDS, List.map_cons,
      List.map_nil, h1, h2, h3, h4, h5, h6]
    decide

theorem keyword_classification_pothole_determinism_witness :
    keyword_based_classification "pothole" = "Road & Transport" :=
  (keyword_classification_pothole_determinism "pothole" (by decide) (by decide)).1

/-- Evaluation of `Char.ofNat` below the surrogate range. -/
lemma char_toNat_ofNat (n : Nat) (h : n < 55296) : (Char.ofNat n).toNat = n := by
  have hv : n.isValidChar := Or.inl h
  rw [Char.ofNat, dif_pos hv]
  simp [Char.ofNatAux, Char.toNat, UInt32.toNat, BitVec.toNat_ofNatLt]

/-- Lowercasing never produces the uppercase letter `'S'`. -/
lemma toLower_ne_S (c : Char) : Char.toLower c ≠ 'S' := by
  intro heq
  simp only [Char.toLower] at heq
  by_cases hcond : c.toNat ≥ 65 ∧ c.toNat ≤ 90
  · rw [if_pos hcond] at heq
    have h2 := congrArg Char.toNat heq
    rw [char_toNat_ofNat (c.toNat + 32) (by omega)] at h2
    have hS : ('S').toNat = 83 := by decide
    omega
  · rw [if_neg hcond] at heq
    subst heq
    exact hcond (by decide)

/-- The capitalised keyword `"Speaker"` is never a substring of a lower-cased
text. -/
lemma speaker_not_sub (s : String) : substrOf "Speaker" (lowerStr s) = false := by
  simp only [substrOf, decide_eq_false_iff_not]
  intro h
  have hS : 'S' ∈ (lowerStr s).data := h.subset (by decide)
  have hS' : 'S' ∈ s.data.map Char.toLower := hS
  rcases List.mem_map.mp hS' with ⟨c, _, hc⟩
  exact toLower_ne_S c hc

/-- C9: the `'Speaker'` entry of the Noise keyword list never contributes to
the Noise score: keywords are compared verbatim against the lower-cased text,
`"Speaker"` contains an uppercase letter, so the Noise count always equals the
count over the remaining 15 keywords; in particular the text `"speaker"`
scores zero for Noise. -/
theorem speaker_keyword_never_contributes (s : String) :
    substrOf "Speaker" (lowerStr s) = false ∧
    List.countP (fun k => substrOf k (lowerStr s)) noiseKeywords
      = List.countP (fun k => substrOf k (lowerStr s)) (noiseKeywords.erase "Speaker") ∧
    List.countP (fun k => substrOf k (lowerStr "speaker")) noiseKeywords = 0 := by
  refine ⟨speaker_not_sub s, ?_, by decide⟩
  have h := speaker_not_sub s
  rw [show noiseKeywords.erase "Speaker"
      = ["noise", "sound", "loud", "disturbance", "music", "construction",
         "pollution", "volume", "shouting", "party", "horn", "siren",
         "barking", "disturb", "quiet"] from by decide]
  simp [noiseKeywords, List.countP_cons, h]

/-- The regex substitution only outputs kept characters. -/
lemma keep_of_subChar (c : Char) : keepChar (subChar c) = true := by
  by_cases h : keepChar c = true
  · simp only [subChar]
    rw [if_pos h]
    exact h
  · simp only [subChar]
    rw [if_neg h]
    decide

/-- Kept characters (lowercase letters, digits, ASCII whitespace) are fixed
points of lowercasing. -/
lemma toLower_fix_of_keep (c : Char) (h : keepChar c = true) : Char.toLower c = c := by
  simp only [keepChar, Bool.or_eq_true, Bool.and_eq_true, decide_eq_true_eq,
    or_assoc] at h
  rcases h with ⟨h1, h2⟩ | ⟨h1, h2⟩ | h1
  · have l1 : (97 : Nat) ≤ c.toNat := h1
    have l2 : c.toNat ≤ 122 := h2
    simp only [Char.toLower]
    rw [if_neg (by omega)]
  · have l1 : (48 : Nat) ≤ c.toNat := h1
    have l2 : c.toNat ≤ 57 := h2
    simp only [Char.toLower]
    rw [if_neg (by omega)]
  · have h2 : c = ' ' ∨ c = '\t' ∨ c = '\n' ∨ c = '\r' ∨ c = '\x0b' ∨ c = '\x0c' := by
      simpa [isSpace, Bool.or_eq_true, decide_eq_true_eq, or_assoc] using h1
    rcases h2 with rfl | rfl | rfl | rfl | rfl | rfl <;> decide

/-- A map whose function fixes every list element is the identity. -/
lemma map_fix {f : Char → Char} (l : List Char) (h : ∀ c ∈ l, f c = c) :
    l.map f = l := by
  induction l with
  | nil => rfl
  | cons x xs ih =>
    rw [List.map_cons, h x (List.mem_cons_self x xs),
      ih (fun c hc => h c (List.mem_cons_of_mem x hc))]

/-- Splitting consumes a whitespace-free chunk into the accumulator. -/
lemma wordsAux_no_space_chunk (w : List Char) (hw : ∀ c ∈ w, isSpace c = false) :
    ∀ (l acc : List Char), wordsAux (w ++ l) acc = wordsAux l (w.reverse ++ acc) := by
  induction w with
  | nil =>
    intro l acc
    rfl
  | cons c w ih =>
    intro l acc
    have hc : isSpace c = false := hw c (List.mem_cons_self c w)
    have hw' : ∀ x ∈ w, isSpace x = false :=
      fun x hx => hw x (List.mem_cons_of_mem c hx)
    rw [List.cons_append]
    simp [wordsAux, hc, ih hw' l (c :: acc), List.reverse_cons, List.append_assoc]

/-- Unfolding of `intercalate` on a two-or-more element list. -/
lemma intercalate_cons_cons (w w' : List Char) (ws : List (List Char)) :
    List.intercalate [' '] (w :: w' :: ws)
      = w ++ ' ' :: List.intercalate [' '] (w' :: ws) := by
  simp [List.intercalate, List.intersperse]

/-- Unfolding of `intercalate` on a singleton. -/
lemma intercalate_single (w : List Char) : List.intercalate [' '] [w] = w := by
  simp [List.intercalate]

/-- Splitting a single-space-joined list of nonempty whitespace-free words
recovers exactly those words. -/
lemma words_intercalate (ws : List (List Char))
    (h : ∀ w ∈ ws, w ≠ [] ∧ ∀ c ∈ w, isSpace c = false) :
    wordsAux (List.intercalate [' '] ws) [] = ws := by
  induction ws with
  | nil => simp [List.intercalate, wordsAux]
  | cons w ws ih =>
    obtain ⟨hwne, hwns⟩ := h w (List.mem_cons_self w ws)
    cases ws with
    | nil =>
      rw [intercalate_single]
      have h2 := wordsAux_no_space_chunk w hwns [] []
      rw [List.append_nil] at h2
      rw [h2, List.append_nil]
      simp [wordsAux, List.reverse_eq_nil_iff, hwne]
    | cons w' ws' =>
      rw [intercalate_cons_cons,
        wordsAux_no_space_chunk w hwns (' ' :: List.intercalate [' '] (w' :: ws')) [],
        List.append_nil]
      have hrev : ¬(w.reverse = []) := by
        simpa [List.reverse_eq_nil_iff] using hwne
      simp only [wordsAux, isSpace]
      rw [if_pos (by decide), if_neg hrev, List.reverse_reverse,
        ih (fun x hx => h x (List.mem_cons_of_mem w hx))]

/-- Every word produced by splitting is nonempty and whitespace-free, given a
whitespace-free accumulator. -/
lemma wordsAux_sound : ∀ (l acc : List Char), (∀ c ∈ acc, isSpace c = false) →
    ∀ w ∈ wordsAux l acc, w ≠ [] ∧ ∀ c ∈ w, isSpace c = false := by
  intro l
  induction l with
  | nil =>
    intro acc hacc w hw
    by_cases h : acc = []
    · simp [wordsAux, h] at hw
    · simp [wordsAux, h] at hw
      subst hw
      refine ⟨by simpa [List.reverse_eq_nil_iff] using h, ?_⟩
      intro c hc
      exact hacc c (List.mem_reverse.mp hc)
  | cons x xs ih =>
    intro acc hacc w hw
    by_cases hx : isSpace x = true
    · by_cases hacc0 : acc = []
      · simp [wordsAux, hx, hacc0] at hw
        exact ih [] (fun c hc => absurd hc (List.not_mem_nil c)) w hw
      · simp [wordsAux, hx, hacc0] at hw
        rcases hw with rfl | hw
        · refine ⟨by simpa [List.reverse_eq_nil_iff] using hacc0, ?_⟩
          intro c hc
          exact hacc c (List.mem_reverse.mp hc)
        · exact ih [] (fun c hc => absurd hc (List.not_mem_nil c)) w hw
    · have hx' : isSpace x = false := by simpa using hx
      simp [wordsAux, hx'] at hw
      refine ih (x :: acc) ?_ w hw
      intro c hc
      rcases List.mem_cons.mp hc with rfl | hc2
      · exact hx'
      · exact hacc c hc2

/-- Every character of a word produced by splitting comes from the input or
the accumulator. -/
lemma wordsAux_chars : ∀ (l acc : List Char), ∀ w ∈ wordsAux l acc,
    ∀ c ∈ w, c ∈ l ∨ c ∈ acc := by
  intro l
  induction l with
  | nil =>
    intro acc w hw c hc
    by_cases h : acc = []
    · simp [wordsAux, h] at hw
    · simp [wordsAux, h] at hw
      subst hw
      exact Or.inr (List.mem_reverse.mp hc)
  | cons x xs ih =>
    intro acc w hw c hc
    by_cases hx : isSpace x = true
    · by_cases hacc0 : acc = []
      · simp [wordsAux, hx, hacc0] at hw
        rcases ih [] w hw c hc with h | h
        · exact Or.inl (List.mem_cons_of_mem x h)
        · exact absurd h (List.not_mem_nil c)
      · simp [wordsAux, hx, hacc0] at hw
        rcases hw with rfl | hw
        · exact Or.inr (List.mem_reverse.mp hc)
        · rcases ih [] w hw c hc with h | h
          · exact Or.inl (List.mem_cons_of_mem x h)
          · exact absurd h (List.not_mem_nil c)
    · have hx' : isSpace x = false := by simpa using hx
      simp [wordsAux, hx'] at hw
      rcases ih (x :: acc) w hw c hc with h | h
      · exact Or.inl (List.mem_cons_of_mem x h)
      · rcases List.mem_cons.mp h with rfl | h2
        · exact Or.inl (List.mem_cons_self c xs)
        · exact Or.inr h2

/-- Characters of a single-space join are the space or word characters. -/
lemma mem_intercalate_space (ws : List (List Char)) (c : Char)
    (hc : c ∈ List.intercalate [' '] ws) : c = ' ' ∨ ∃ w ∈ ws, c ∈ w := by
  induction ws with
  | nil => simp [List.intercalate] at hc
  | cons w ws ih =>
    cases ws with
    | nil =>
      rw [intercalate_single] at hc
      exact Or.inr ⟨w, List.mem_cons_self w [], hc⟩
    | cons w' ws' =>
      rw [intercalate_cons_cons] at hc
      rcases List.mem_append.mp hc with h | h
      · exact Or.inr ⟨w, List.mem_cons_self w _, h⟩
      · rcases List.mem_cons.mp h with rfl | h2
        · exact Or.inl rfl
        · rcases ih h2 with h3 | ⟨u, hu, hcu⟩
          · exact Or.inl h3
          · exact Or.inr ⟨u, List.mem_cons_of_mem w hu, hcu⟩

/-- Idempotence of the preprocessing core on character lists. -/
lemma preprocessList_idem (l : List Char) :
    preprocessList (preprocessList l) = preprocessList l := by
  have hkeep_inner : ∀ c ∈ (l.map Char.toLower).map subChar, keepChar c = true := by
    intro c hc
    rcases List.mem_map.mp hc with ⟨x, _, rfl⟩
    exact keep_of_subChar x
  have hsound := wordsAux_sound ((l.map Char.toLower).map subChar) []
    (fun c hc => absurd hc (List.not_mem_nil c))
  have hwchars : ∀ w ∈ wordsAux ((l.map Char.toLower).map subChar) [],
      ∀ c ∈ w, keepChar c = true := by
    intro w hw c hc
    rcases wordsAux_chars _ [] w hw c hc with h | h
    · exact hkeep_inner c h
    · exact absurd h (List.not_mem_nil c)
  have hrchars : ∀ c ∈ preprocessList l, keepChar c = true := by
    intro c hc
    rcases mem_intercalate_space _ c hc with rfl | ⟨w, hw, hcw⟩
    · decide
    · exact hwchars w hw c hcw
  have hlow : (preprocessList l).map Char.toLower = preprocessList l :=
    map_fix _ (fun c hc => toLower_fix_of_keep c (hrchars c hc))
  have hsub2 : (preprocessList l).map subChar = preprocessList l :=
    map_fix _ (fun c hc => by simp [subChar, hrchars c hc])
  have hwords : wordsAux (preprocessList l) []
      = wordsAux ((l.map Char.toLower).map subChar) [] :=
    words_intercalate _ hsound
  calc preprocessList (preprocessList l)
      = List.intercalate [' ']
          (wordsAux (((preprocessList l).map Char.toLower).map subChar) []) := rfl
    _ = List.intercalate [' '] (wordsAux (preprocessList l) []) := by rw [hlow, hsub2]
    _ = List.intercalate [' ']
          (wordsAux ((l.map Char.toLower).map subChar) []) := by rw [hwords]
    _ = preprocessList l := rfl

/-- C8: text normalization is idempotent: lowercasing, replacing every
character other than lowercase letters, digits and whitespace by a space, and
collapsing whitespace runs (with end-trimming) is a fixed point on its own
output. -/
theorem preprocess_text_idempotent (s : String) :
    preprocess_text (preprocess_text s) = preprocess_text s :=
  congrArg String.mk (preprocessList_idem s.data)

end SmartComplaint
